import Mathlib

/-
Verification development for the trace message broker.

The Go sources embedded here:
  src/message/topic.go          - topic parsing (static and wildcard)
  src/lineprotocol/grpc/publish.go - gRPC codec for the publish packet family
  src/broker (conn)             - subscribe / unsubscribe / publish / close
  src/db/adapter.go             - store adapter contract

Collaborators that are part of the repository but not under src/ (the stats
structure, the subscription store, the cluster plane, the hashing package,
the protobuf wire layer) are modelled from the specification; each such
definition carries a doc comment starting with the words Modelled from the
spec.  Machine integers are Nat with explicit reductions modulo 2^8, 2^16
or 2^32 where the Go code truncates.
-/

namespace Trace

/-- Little-endian four-byte encoding of a 32-bit value, as produced by
binary.LittleEndian.PutUint32 in conn.subscribe. -/
def le32 (n : Nat) : List Nat :=
  [n % 256, n / 256 % 256, n / 2 ^ 16 % 256, n / 2 ^ 24 % 256]

/-- Little-endian 32-bit decoding, as performed by binary.LittleEndian.Uint32
in conn.publish; reads the first four bytes (0 when absent). -/
def dec32 (l : List Nat) : Nat :=
  l.getD 0 0 + l.getD 1 0 * 256 + l.getD 2 0 * 2 ^ 16 + l.getD 3 0 * 2 ^ 24

/-- Unbounded little-endian base-128 varint encoding; used by the modelled
protobuf wire layer. -/
def varint (n : Nat) : List Nat :=
  if h : n < 128 then [n] else (n % 128 + 128) :: varint (n / 128)
decreasing_by exact Nat.div_lt_self (by omega) (by omega)

/-- Varint decoding; returns the value and the remaining bytes. -/
def varintDec : List Nat → Option (Nat × List Nat)
  | [] => none
  | b :: rest =>
    if b < 128 then some (b, rest)
    else
      match varintDec rest with
      | some (n, r) => some (b - 128 + 128 * n, r)
      | none => none

/-- Accumulator-passing core of fieldsFunc. -/
def fieldsFuncAux (f : Char → Bool) : List Char → List Char → List (List Char)
  | [], acc => if acc.isEmpty then [] else [acc.reverse]
  | c :: rest, acc =>
    if f c then
      if acc.isEmpty then fieldsFuncAux f rest []
      else acc.reverse :: fieldsFuncAux f rest []
    else fieldsFuncAux f rest (c :: acc)

/-- Embedding of bytes.FieldsFunc: splits at separator characters and drops
empty fields. -/
def fieldsFunc (f : Char → Bool) (l : List Char) : List (List Char) :=
  fieldsFuncAux f l []

/-- Embedding of bytes.TrimRight with the cutset of the children-of-all
separator, which trims every trailing dot character. -/
def trimRightDots (l : List Char) : List Char :=
  (l.reverse.dropWhile (· == '.')).reverse

/-! ### Topic model, from src/message/topic.go -/

/-- Topic type constant TopicInvalid. -/
def topicInvalid : Nat := 0

/-- Topic type constant TopicStatic. -/
def topicStatic : Nat := 1

/-- Topic type constant TopicWildcard. -/
def topicWildcard : Nat := 2

/-- A parsed topic part: a 32-bit salted hash plus a wildchars count
(struct Part in topic.go). -/
structure Part where
  query : Nat
  wildchars : Nat
deriving Repr, DecidableEq, Inhabited

/-- A key/value topic option (struct TopicOption in topic.go). -/
structure TopicOption where
  key : List Char
  value : List Char
deriving Repr, DecidableEq

/-- A parsed topic (struct Topic in topic.go). -/
structure MTopic where
  key : List Char := []
  topic : List Char := []
  topicOptions : List Char := []
  parts : List Part := []
  depth : Nat := 0
  options : List TopicOption := []
  topicType : Nat := 0
deriving Repr, DecidableEq

/-- Modelled from the spec: pkg/hash.WithSalt computes a 32-bit salted hash
of a byte segment using the contract id as salt; the hashing package is not
under src/, so a concrete 32-bit multiplicative fold stands in for it. -/
def hashWithSalt (b : List Char) (salt : Nat) : Nat :=
  b.foldl (fun h c => (h * 16777619 + c.toNat) % 2 ^ 32) (salt % 2 ^ 32)

/-- Modelled from the spec: the precomputed query value the parser stores for
a bare children-of-all topic (constant named wildcard in the message package,
whose defining file is not under src/); its concrete value is immaterial. -/
def wildcardQuery : Nat := hashWithSalt ['*'] 0

/-- Embedding of Topic.parseOptions: split the option bytes on the ampersand,
split each piece at the equals sign, silently skip malformed pieces. -/
def parseOptionsList (text : List Char) : List TopicOption :=
  (fieldsFunc (· == '&') text).filterMap fun o =>
    match fieldsFunc (· == '=') o with
    | k :: v :: _ => some ⟨k, v⟩
    | _ => none

/-- Embedding of parseStaticTopic: options parsed, every dot-separated
segment hashed into a part, depth set to the part count truncated to uint8,
topic type set to static. -/
def parseStaticTopic (contract : Nat) (t0 : MTopic) : MTopic × Bool :=
  let t := { t0 with options := t0.options ++ parseOptionsList t0.topicOptions,
                     parts := ([] : List Part) }
  let ps := (fieldsFunc (· == '.') t.topic).map fun p =>
    Part.mk (hashWithSalt p contract) 0
  ({ t with parts := ps, depth := ps.length % 256, topicType := topicStatic }, true)

/-- Write the wildchars field of the part at the given index, as the indexed
assignment in parseWildcardTopic does; out-of-range writes cannot occur in
reachable states and are a no-op here. -/
def setWildchars (l : List Part) (i : Nat) (w : Nat) : List Part :=
  match l.get? i with
  | some p => l.set i { p with wildchars := w }
  | none => l

/-- Embedding of the segment loop of parseWildcardTopic.  The state carries
the parts accumulated so far, the topic type, the pending wildchars count,
the total wildcard-segment count and the depth counter (a uint8 counter in
the source, reduced modulo 256 at each step). -/
def wildSegs (contract : Nat) : List (List Char) → Nat → List Part → Nat →
    Nat → Nat → Nat → List Part × Nat × Nat × Nat
  | [], _, parts, tType, wildchars, _, depth => (parts, tType, wildchars, depth)
  | p :: rest, idx, parts, tType, wildchars, wildcharcount, depth =>
    let depth := (depth + 1) % 256
    if ['*'].isSuffixOf p then
      let parts := if idx = 0 then parts ++ [Part.mk (hashWithSalt p contract) 0] else parts
      wildSegs contract rest (idx + 1) parts topicWildcard (wildchars + 1)
        (wildcharcount + 1) depth
    else
      let parts := parts ++ [Part.mk (hashWithSalt p contract) 0]
      let parts :=
        if wildchars > 0 then
          if idx ≥ wildcharcount + 1 then setWildchars parts (idx - wildcharcount - 1) wildchars
          else setWildchars parts 0 wildchars
        else parts
      let wildchars := if wildchars > 0 then 0 else wildchars
      wildSegs contract rest (idx + 1) parts tType wildchars wildcharcount depth

/-- Segment phase of parseWildcardTopic: runs the segment loop, lands a
pending trailing wildchars count on the last part, adds the segment count to
depth (uint8 addition) and types a topic with no wildcard segment static. -/
def parseWildSegsPhase (contract : Nat) (t : MTopic) : MTopic × Bool :=
  let segs := fieldsFunc (· == '.') t.topic
  let r := wildSegs contract segs 0 [] t.topicType 0 0 0
  let parts := r.1
  let tType := r.2.1
  let wildchars := r.2.2.1
  let depth := r.2.2.2
  let parts := if wildchars > 0 then setWildchars parts (parts.length - 1) wildchars
               else parts
  let tType := if tType ≠ topicWildcard then topicStatic else tType
  ({ t with parts := parts, topicType := tType, depth := (t.depth + depth) % 256 }, true)

/-- Embedding of parseWildcardTopic: options parsed; a trailing
children-of-all suffix is trimmed, marks the topic wildcard and sets depth
to the sentinel 23 (returning early when nothing remains); then the segment
phase runs. -/
def parseWildcardTopic (contract : Nat) (t0 : MTopic) : MTopic × Bool :=
  let t := { t0 with options := t0.options ++ parseOptionsList t0.topicOptions,
                     parts := ([] : List Part) }
  if ['.', '.', '.'].isSuffixOf t.topic then
    let t := { t with topic := trimRightDots t.topic, topicType := topicWildcard,
                      depth := 23 }
    if t.topic.isEmpty then
      ({ t with parts := [Part.mk wildcardQuery 0] }, false)
    else
      parseWildSegsPhase contract t
  else
    parseWildSegsPhase contract t

/-- Embedding of Topic.Parse: dispatch to the wildcard or the static parser. -/
def topicParse (contract : Nat) (wildcard : Bool) (t : MTopic) : MTopic :=
  if wildcard then (parseWildcardTopic contract t).1
  else (parseStaticTopic contract t).1

/-- Follows the words of the specification for claim C6: the number of
concrete (non-wildcard) parts of a topic, namely the dot-separated segments
that are not single-level wildcard segments. -/
def specConcreteParts (topic : List Char) : Nat :=
  ((fieldsFunc (· == '.') topic).filter fun p => !(['*'].isSuffixOf p)).length

/-! ### gRPC codec for the publish family, from src/lineprotocol/grpc/publish.go -/

namespace Grpc

/-- The lineprotocol Publish packet as the grpc codec and the broker use it:
a fixed-header qos, a 16-bit message id, topic and payload bytes, and the
internal forwarded flag (lp.Publish). -/
structure Publish where
  qos : Nat
  messageID : Nat
  topic : List Nat
  payload : List Nat
  isForwarded : Bool := false
deriving Repr, DecidableEq

/-- The lineprotocol Puback packet as the grpc codec uses it (lp.Puback). -/
structure Puback where
  messageID : Nat
deriving Repr, DecidableEq

/-- The lineprotocol Pubrec packet as the grpc codec uses it (lp.Pubrec). -/
structure Pubrec where
  qos : Nat
  messageID : Nat
deriving Repr, DecidableEq

/-- The lineprotocol Pubrel packet as the grpc codec uses it (lp.Pubrel). -/
structure Pubrel where
  qos : Nat
  messageID : Nat
deriving Repr, DecidableEq

/-- The lineprotocol Pubcomp packet as the grpc codec uses it (lp.Pubcomp). -/
structure Pubcomp where
  messageID : Nat
deriving Repr, DecidableEq

/-- The publish-family packet alphabet carried by the framing. -/
inductive Packet where
  | publish (p : Publish)
  | puback (p : Puback)
  | pubrec (p : Pubrec)
  | pubrel (p : Pubrel)
  | pubcomp (p : Pubcomp)
deriving Repr, DecidableEq

/-- The generated pbx.Publish proto message (all integer fields uint32). -/
structure PbxPublish where
  messageID : Nat
  topic : List Nat
  payload : List Nat
  qos : Nat
deriving Repr, DecidableEq

/-- The generated pbx.Puback proto message. -/
structure PbxPuback where
  messageID : Nat
deriving Repr, DecidableEq

/-- The generated pbx.Pubrec proto message. -/
structure PbxPubrec where
  messageID : Nat
  qos : Nat
deriving Repr, DecidableEq

/-- The generated pbx.Pubrel proto message. -/
structure PbxPubrel where
  messageID : Nat
  qos : Nat
deriving Repr, DecidableEq

/-- The generated pbx.Pubcomp proto message. -/
structure PbxPubcomp where
  messageID : Nat
deriving Repr, DecidableEq

/-- Modelled from the spec: the pbx message type tag for PUBLISH; the proto
definitions are not under src/, and the spec places exact byte values out of
scope, so the five tags are distinct constants. -/
def mtPUBLISH : Nat := 3

/-- Modelled from the spec: the pbx message type tag for PUBACK. -/
def mtPUBACK : Nat := 4

/-- Modelled from the spec: the pbx message type tag for PUBREC. -/
def mtPUBREC : Nat := 5

/-- Modelled from the spec: the pbx message type tag for PUBREL. -/
def mtPUBREL : Nat := 6

/-- Modelled from the spec: the pbx message type tag for PUBCOMP. -/
def mtPUBCOMP : Nat := 7

/-- Modelled from the spec: proto.Marshal for pbx.Publish.  The spec places
the exact proto byte layout out of scope, so the wire layer is modelled as a
concrete invertible serialization: little-endian 32-bit integer fields and
varint-length-prefixed byte fields. -/
def marshalPbxPublish (m : PbxPublish) : List Nat :=
  le32 m.messageID ++ le32 m.qos ++ varint m.topic.length ++ m.topic ++
    varint m.payload.length ++ m.payload

/-- Modelled from the spec: proto.Unmarshal for pbx.Publish, the inverse of
the modelled marshal; malformed input yields zero values as proto.Unmarshal
errors are ignored by the source. -/
def unmarshalPbxPublish (data : List Nat) : PbxPublish :=
  let mid := dec32 (data.take 4)
  let r1 := data.drop 4
  let qos := dec32 (r1.take 4)
  let r2 := r1.drop 4
  match varintDec r2 with
  | some (tlen, r3) =>
    let topic := r3.take tlen
    let r4 := r3.drop tlen
    match varintDec r4 with
    | some (plen, r5) => ⟨mid, topic, r5.take plen, qos⟩
    | none => ⟨mid, topic, [], qos⟩
  | none => ⟨mid, [], [], qos⟩

/-- Modelled from the spec: proto.Marshal for pbx.Puback. -/
def marshalPbxPuback (m : PbxPuback) : List Nat :=
  le32 m.messageID

/-- Modelled from the spec: proto.Unmarshal for pbx.Puback. -/
def unmarshalPbxPuback (data : List Nat) : PbxPuback :=
  ⟨dec32 (data.take 4)⟩

/-- Modelled from the spec: proto.Marshal for pbx.Pubrec. -/
def marshalPbxPubrec (m : PbxPubrec) : List Nat :=
  le32 m.messageID ++ le32 m.qos

/-- Modelled from the spec: proto.Unmarshal for pbx.Pubrec. -/
def unmarshalPbxPubrec (data : List Nat) : PbxPubrec :=
  ⟨dec32 (data.take 4), dec32 ((data.drop 4).take 4)⟩

/-- Modelled from the spec: proto.Marshal for pbx.Pubrel. -/
def marshalPbxPubrel (m : PbxPubrel) : List Nat :=
  le32 m.messageID ++ le32 m.qos

/-- Modelled from the spec: proto.Unmarshal for pbx.Pubrel. -/
def unmarshalPbxPubrel (data : List Nat) : PbxPubrel :=
  ⟨dec32 (data.take 4), dec32 ((data.drop 4).take 4)⟩

/-- Modelled from the spec: proto.Marshal for pbx.Pubcomp. -/
def marshalPbxPubcomp (m : PbxPubcomp) : List Nat :=
  le32 m.messageID

/-- Modelled from the spec: proto.Unmarshal for pbx.Pubcomp. -/
def unmarshalPbxPubcomp (data : List Nat) : PbxPubcomp :=
  ⟨dec32 (data.take 4)⟩

/-- The grpc FixedHeader proto carrying a message type and the remaining
length (struct FixedHeader in the grpc package). -/
structure GFixedHeader where
  messageType : Nat
  remainingLength : Nat
deriving Repr, DecidableEq

/-- Modelled from the spec: FixedHeader.pack, the serialized fixed header
prefixed to every encoded packet; byte layout out of scope, modelled as the
type tag followed by a varint remaining length. -/
def fhPack (fh : GFixedHeader) : List Nat :=
  fh.messageType :: varint fh.remainingLength

/-- Modelled from the spec: the fixed-header read performed by the stream
reader before dispatching on the message type. -/
def fhUnpack : List Nat → Option (GFixedHeader × List Nat)
  | [] => none
  | t :: rest =>
    match varintDec rest with
    | some (n, r) => some (⟨t, n⟩, r)
    | none => none

/-- Embedding of encodePublish: build the pbx.Publish proto (uint16 message
id and uint8 qos widened to uint32), marshal it, and prefix the fixed header
with the marshalled length. -/
def encodePublish (p : Publish) : List Nat :=
  let pkt := marshalPbxPublish ⟨p.messageID, p.topic, p.payload, p.qos⟩
  fhPack ⟨mtPUBLISH, pkt.length⟩ ++ pkt

/-- Embedding of encodePuback. -/
def encodePuback (p : Puback) : List Nat :=
  let pkt := marshalPbxPuback ⟨p.messageID⟩
  fhPack ⟨mtPUBACK, pkt.length⟩ ++ pkt

/-- Embedding of encodePubrec. -/
def encodePubrec (p : Pubrec) : List Nat :=
  let pkt := marshalPbxPubrec ⟨p.messageID, p.qos⟩
  fhPack ⟨mtPUBREC, pkt.length⟩ ++ pkt

/-- Embedding of encodePubrel. -/
def encodePubrel (p : Pubrel) : List Nat :=
  let pkt := marshalPbxPubrel ⟨p.messageID, p.qos⟩
  fhPack ⟨mtPUBREL, pkt.length⟩ ++ pkt

/-- Embedding of encodePubcomp. -/
def encodePubcomp (p : Pubcomp) : List Nat :=
  let pkt := marshalPbxPubcomp ⟨p.messageID⟩
  fhPack ⟨mtPUBCOMP, pkt.length⟩ ++ pkt

/-- Embedding of unpackPublish: unmarshal the proto and rebuild the packet,
narrowing the id to uint16 and the qos to uint8; the forwarded flag is left
at its zero value. -/
def unpackPublish (data : List Nat) : Packet :=
  let pkt := unmarshalPbxPublish data
  .publish ⟨pkt.qos % 2 ^ 8, pkt.messageID % 2 ^ 16, pkt.topic, pkt.payload, false⟩

/-- Embedding of unpackPuback. -/
def unpackPuback (data : List Nat) : Packet :=
  let pkt := unmarshalPbxPuback data
  .puback ⟨pkt.messageID % 2 ^ 16⟩

/-- Embedding of unpackPubrec. -/
def unpackPubrec (data : List Nat) : Packet :=
  let pkt := unmarshalPbxPubrec data
  .pubrec ⟨pkt.qos % 2 ^ 8, pkt.messageID % 2 ^ 16⟩

/-- Embedding of unpackPubrel. -/
def unpackPubrel (data : List Nat) : Packet :=
  let pkt := unmarshalPbxPubrel data
  .pubrel ⟨pkt.qos % 2 ^ 8, pkt.messageID % 2 ^ 16⟩

/-- Embedding of unpackPubcomp. -/
def unpackPubcomp (data : List Nat) : Packet :=
  let pkt := unmarshalPbxPubcomp data
  .pubcomp ⟨pkt.messageID % 2 ^ 16⟩

/-- Modelled from the spec: the gRPC stream reader parses the fixed header,
slices the body to the remaining length and hands it to the per-type unpack
function. -/
def readPacket (data : List Nat) : Option Packet :=
  match fhUnpack data with
  | none => none
  | some (fh, rest) =>
    let body := rest.take fh.remainingLength
    if fh.messageType = mtPUBLISH then some (unpackPublish body)
    else if fh.messageType = mtPUBACK then some (unpackPuback body)
    else if fh.messageType = mtPUBREC then some (unpackPubrec body)
    else if fh.messageType = mtPUBREL then some (unpackPubrel body)
    else if fh.messageType = mtPUBCOMP then some (unpackPubcomp body)
    else none

end Grpc

/-! ### Broker model, from the Conn code of the broker package -/

namespace Broker

/-- Modelled from the spec: a subscription stat of the per-connection stats
structure, carrying topic bytes, key, message id and refcount; the stats
file is not under src/. -/
structure Stat where
  topic : List Char
  key : List Char
  id : Nat
  refcount : Nat
deriving Repr, DecidableEq

/-- Modelled from the spec: Stats.Exist reports whether the connection holds
a stat for the key. -/
def statsExist (subs : List Stat) (key : List Char) : Bool :=
  subs.any (·.key == key)

/-- Modelled from the spec: Stats.Increment bumps the refcount of an
existing stat or records a new one with refcount one, reporting whether
this was the first reference for the key. -/
def statsIncrement (subs : List Stat) (topic : List Char) (key : List Char)
    (id : Nat) : Bool × List Stat :=
  if statsExist subs key then
    (false, subs.map fun s => if s.key == key then { s with refcount := s.refcount + 1 } else s)
  else
    (true, subs ++ [⟨topic, key, id, 1⟩])

/-- Modelled from the spec: Stats.Decrement lowers the refcount, removing
the stat and reporting the last reference (with its id) when it reaches
zero; a missing key reports false with id zero.  The topic argument is part
of the signature but does not affect the lookup, which is by key. -/
def statsDecrement (subs : List Stat) (_topic : List Char) (key : List Char) :
    Bool × Nat × List Stat :=
  match subs.find? (·.key == key) with
  | none => (false, 0, subs)
  | some s =>
    if s.refcount ≤ 1 then (true, s.id, subs.filter (!·.key == key))
    else (false, s.id, subs.map fun u =>
      if u.key == key then { u with refcount := u.refcount - 1 } else u)

/-- One record of the subscription store: the (contract, id, topic) key and
the stored payload, per the adapter contract of src/db/adapter.go. -/
structure SubRecord where
  contract : Nat
  id : Nat
  topic : List Char
  payload : List Nat
deriving Repr, DecidableEq

/-- Modelled from the spec: the subscription table of the store adapter,
with the id-minting counter NewID draws from. -/
structure SubStore where
  nextID : Nat
  records : List SubRecord
deriving Repr, DecidableEq

/-- Modelled from the spec: Subscription.NewID mints a fresh id. -/
def subNewID (st : SubStore) : Nat × SubStore :=
  (st.nextID, { st with nextID := st.nextID + 1 })

/-- Modelled from the spec: Subscription.Put persists a payload under the
(contract, id, topic) key. -/
def subPut (st : SubStore) (contract id : Nat) (topic : List Char)
    (payload : List Nat) : SubStore :=
  { st with records := st.records ++ [⟨contract, id, topic, payload⟩] }

/-- Modelled from the spec: Subscription.Get fetches the payloads stored for
a (contract, topic) pair. -/
def subGet (st : SubStore) (contract : Nat) (topic : List Char) : List (List Nat) :=
  (st.records.filter fun r => r.contract == contract && r.topic == topic).map (·.payload)

/-- Modelled from the spec: Subscription.Delete removes the records stored
under the (contract, id, topic) key. -/
def subDelete (st : SubStore) (contract id : Nat) (topic : List Char) : SubStore :=
  { st with records := st.records.filter fun r =>
      !(r.contract == contract && r.id == id && r.topic == topic) }

/-- Modelled from the spec: the service meters the broker increments and
decrements (connections, subscriptions, message and byte counters). -/
structure Meter where
  connections : Int
  subscriptions : Int
  inMsgs : Int
  inBytes : Int
  outMsgs : Int
  outBytes : Int
deriving Repr, DecidableEq

/-- Modelled from the spec: the per-connection message-id minter backed by
the inflight table; NextID hands out a fresh id. -/
structure MessageIds where
  nextFree : Nat
  inflight : List Nat
deriving Repr, DecidableEq

/-- Modelled from the spec: MessageIds.NextID mints the next free id and
records it in flight. -/
def nextID (m : MessageIds) : Nat × MessageIds :=
  (m.nextFree, ⟨m.nextFree + 1, m.inflight ++ [m.nextFree]⟩)

/-- Modelled from usage and the spec: the parsed security.Topic handed to
the Conn operations, with its key bytes, topic bytes and the size marking
the topic prefix the broker slices with. -/
structure SecTopic where
  key : List Char
  topic : List Char
  size : Nat
deriving Repr, DecidableEq

/-- The fields of lp.Subscribe that Conn.subscribe reads: the header qos and
the internal forwarded flag. -/
structure LpSubscribe where
  qos : Nat
  isForwarded : Bool
deriving Repr, DecidableEq

/-- The field of lp.Unsubscribe that Conn.unsubscribe reads. -/
structure LpUnsubscribe where
  isForwarded : Bool
deriving Repr, DecidableEq

/-- The fields of lp.Publish that Conn.publish reads: the header qos and the
internal forwarded flag. -/
structure LpPublish where
  qos : Nat
  isForwarded : Bool
deriving Repr, DecidableEq

/-- The message the publish fan-out delivers (message.Message). -/
structure Msg where
  messageID : Nat
  qos : Nat
  topic : List Char
  payload : List Nat
deriving Repr, DecidableEq

/-- Modelled from the spec: Message.Size is the on-wire byte count; its
definition is not under src/, so topic plus payload length stands in (it
only feeds the byte meter). -/
def msgSize (m : Msg) : Nat :=
  m.topic.length + m.payload.length

/-- The terminal actions the cluster plane can replay on a peer
(message.SUBSCRIBE, message.UNSUBSCRIBE, message.PUBLISH). -/
inductive Op where
  | subscribe
  | unsubscribe
  | publish
deriving Repr, DecidableEq

/-- The observable effects of a Conn operation: cluster forwarding, store
mutations, deliveries, id minting and disconnect gossip. -/
inductive Event where
  | routeToContract (op : Op)
  | storePut (contract id : Nat) (topic : List Char) (payload : List Nat)
  | storeDelete (contract id : Nat) (topic : List Char)
  | sendMessage (lid : Nat) (m : Msg)
  | mint (mid : Nat)
  | connGone (connid : Nat)
deriving Repr, DecidableEq

/-- The per-connection state the claims touch: local id, contract id,
subscription stats, inflight message ids, the cluster-node back-reference
flag and the close bookkeeping (struct Conn). -/
structure Conn where
  connid : Nat
  contract : Nat
  subs : List Stat
  mids : MessageIds
  hasClnode : Bool
  closeCClosed : Bool
  sendClosed : Bool
  socketClosed : Bool
deriving Repr, DecidableEq

/-- The process-wide state the Conn operations touch: the subscription
store, the meters, the connection cache (set of live local ids) and the
cluster ownership decision.  Modelled from the spec: isRemoteContract is
abstracted to membership in a fixed set of remote contracts, since the
consistent-hash ring is not under src/. -/
structure BrokerState where
  store : SubStore
  meter : Meter
  cache : List Nat
  remoteContracts : List Nat
deriving Repr, DecidableEq

/-- Modelled from the spec: Cluster.isRemoteContract, the contract-sharded
local-versus-remote decision. -/
def isRemoteContract (b : BrokerState) (contract : Nat) : Bool :=
  b.remoteContracts.contains contract

/-- Embedding of Conn.outboundID: uint16 of the uint32 difference between
the connection id and the minted id. -/
def outboundID (connid mid : Nat) : Nat :=
  (connid % 2 ^ 32 + 2 ^ 32 - mid % 2 ^ 32) % 2 ^ 32 % 2 ^ 16

/-- Embedding of Conn.subscribe.  When the key already exists locally, the
packet was not forwarded and the contract is remote, the request is routed
to the owner; otherwise an id is minted, the stats are incremented, and a
first reference persists the five-byte qos-plus-connid payload under
(contract, id, topic) and bumps the subscription meter. -/
def subscribe (c : Conn) (msg : LpSubscribe) (t : SecTopic) (b : BrokerState) :
    Conn × BrokerState × List Event :=
  if statsExist c.subs t.key && !msg.isForwarded && isRemoteContract b c.contract then
    (c, b, [Event.routeToContract Op.subscribe])
  else
    let r := subNewID b.store
    let messageId := r.1
    let store1 := r.2
    let ri := statsIncrement c.subs (t.topic.take t.size) t.key messageId
    if ri.1 then
      let payload := msg.qos :: le32 c.connid
      let store2 := subPut store1 c.contract messageId t.topic payload
      ({ c with subs := ri.2 },
       { b with store := store2,
                meter := { b.meter with subscriptions := b.meter.subscriptions + 1 } },
       [Event.storePut c.contract messageId t.topic payload])
    else
      ({ c with subs := ri.2 }, { b with store := store1 }, [])

/-- Embedding of Conn.unsubscribe.  The stats are decremented; the last
reference deletes the store record and lowers the subscription meter; then
a non-forwarded request on a remote contract is routed to the owner. -/
def unsubscribe (c : Conn) (msg : LpUnsubscribe) (t : SecTopic) (b : BrokerState) :
    Conn × BrokerState × List Event :=
  let rd := statsDecrement c.subs (t.topic.take t.size) t.key
  let last := rd.1
  let messageId := rd.2.1
  let subs1 := rd.2.2
  let b1 := if last then
      { b with store := subDelete b.store c.contract messageId (t.topic.take t.size),
               meter := { b.meter with subscriptions := b.meter.subscriptions - 1 } }
    else b
  let evs1 := if last then [Event.storeDelete c.contract messageId (t.topic.take t.size)]
    else []
  let evs2 := if !msg.isForwarded && isRemoteContract b c.contract then
      [Event.routeToContract Op.unsubscribe]
    else []
  ({ c with subs := subs1 }, b1, evs1 ++ evs2)

/-- Embedding of the subscriber loop of Conn.publish.  Each stored record
sets the delivery qos from its first payload byte and addresses the cached
connection named by its little-endian connid bytes; a cache hit mints an
outbound id when the qos is non-zero and the current id is zero, delivers,
and counts the delivery. -/
def fanOut (cache : List Nat) (connid : Nat) : List (List Nat) → Msg → MessageIds →
    Msg × MessageIds × Nat × List Event
  | [], m, mids => (m, mids, 0, [])
  | rec :: rest, m, mids =>
    let m1 := { m with qos := rec.getD 0 0 }
    let lid := dec32 (rec.drop 1)
    if cache.contains lid then
      let step :=
        if m1.qos ≠ 0 ∧ m1.messageID = 0 then
          let rn := nextID mids
          ({ m1 with messageID := outboundID connid rn.1 }, rn.2, [Event.mint rn.1])
        else (m1, mids, [])
      let m2 := step.1
      let mids2 := step.2.1
      let evs2 := step.2.2
      let rest' := fanOut cache connid rest m2 mids2
      (rest'.1, rest'.2.1, rest'.2.2.1 + 1, evs2 ++ Event.sendMessage lid m2 :: rest'.2.2.2)
    else
      let rest' := fanOut cache connid rest m1 mids
      (rest'.1, rest'.2.1, rest'.2.2.1, rest'.2.2.2)

/-- Embedding of Conn.publish: bump the inbound meters, fetch the stored
subscriber records for (contract, topic), run the fan-out, bump the
outbound meters, and finally route a non-forwarded publish on a remote
contract to the owner. -/
def publish (c : Conn) (msg : LpPublish) (messageID : Nat) (t : SecTopic)
    (payload : List Nat) (b : BrokerState) : Conn × BrokerState × List Event :=
  let meter1 := { b.meter with inMsgs := b.meter.inMsgs + 1,
                               inBytes := b.meter.inBytes + payload.length }
  let conns := subGet b.store c.contract t.topic
  let m0 : Msg := ⟨messageID, 0, t.topic.take t.size, payload⟩
  let fr := fanOut b.cache c.connid conns m0 c.mids
  let mF := fr.1
  let midsF := fr.2.1
  let scount := fr.2.2.1
  let evs := fr.2.2.2
  let meter2 := { meter1 with outMsgs := meter1.outMsgs + scount,
                              outBytes := meter1.outBytes + msgSize mF * scount }
  let evs2 := if !msg.isForwarded && isRemoteContract b c.contract then
      evs ++ [Event.routeToContract Op.publish]
    else evs
  ({ c with mids := midsF }, { b with meter := meter2 }, evs2)

/-- Embedding of the teardown loop of Conn.close: for every held stat the
record is deleted directly from the store and the subscription meter is
decremented. -/
def closeDeletes (contract : Nat) : List Stat → SubStore → Meter →
    SubStore × Meter × List Event
  | [], st, mt => (st, mt, [])
  | s :: rest, st, mt =>
    let st1 := subDelete st contract s.id s.topic
    let mt1 := { mt with subscriptions := mt.subscriptions - 1 }
    let r := closeDeletes contract rest st1 mt1
    (r.1, r.2.1, Event.storeDelete contract s.id s.topic :: r.2.2)

/-- Embedding of Conn.close.  A second call finds the close-signal channel
already closed and panics there (the deferred socket close still runs, and
nothing else is touched).  A first call closes the channel, deletes every
held subscription directly from the store for a non-cluster connection,
removes the connection from the cache, gossips the disconnect, closes the
send channel and decrements the connection meter.  The Bool result reports
a panic. -/
def close (c : Conn) (b : BrokerState) : Bool × Conn × BrokerState × List Event :=
  if c.closeCClosed then
    (true, { c with socketClosed := true }, b, [])
  else
    let c1 := { c with closeCClosed := true }
    let r := if !c.hasClnode then closeDeletes c.contract c1.subs b.store b.meter
      else (b.store, b.meter, [])
    let store1 := r.1
    let meter1 := r.2.1
    let evs1 := r.2.2
    let cache1 := b.cache.filter (· ≠ c.connid)
    (false,
     { c1 with socketClosed := true, sendClosed := true },
     { b with store := store1, cache := cache1,
              meter := { meter1 with connections := meter1.connections - 1 } },
     evs1 ++ [Event.connGone c.connid])

/-- Fold a list of subscribe requests through a connection, as a session
dispatching successive SUBSCRIBE packets does. -/
def subscribeAll (c : Conn) (b : BrokerState) :
    List (LpSubscribe × SecTopic) → Conn × BrokerState
  | [] => (c, b)
  | (msg, t) :: rest =>
    let r := subscribe c msg t b
    subscribeAll r.1 r.2.1 rest

/-- The (recipient, qos) pairs of the deliveries among an event list, in
order. -/
def sendPairs (evs : List Event) : List (Nat × Nat) :=
  evs.filterMap fun e =>
    match e with
    | Event.sendMessage lid m => some (lid, m.qos)
    | _ => none

/-- Bool rendering of the words of claim C4: a delivered message id was
minted from the sender's inflight table, through the outbound transform of
some mint event in the run. -/
def mintedFromB (evs : List Event) (connid id : Nat) : Bool :=
  evs.any fun e =>
    match e with
    | Event.mint mid => id == outboundID connid mid
    | _ => false

/-- Bool rendering of the words of claim C4 over a run: every delivery with
non-zero qos carries a non-zero message id minted from the sender's
inflight table. -/
def specC4B (connid : Nat) (evs : List Event) : Bool :=
  evs.all fun e =>
    match e with
    | Event.sendMessage _ m =>
      m.qos == 0 || (!(m.messageID == 0) && mintedFromB evs connid m.messageID)
    | _ => true

/-- Invariant tying a connection mid-session to the initial broker state:
the store holds exactly the initial records plus one appended record per
held stat (matching on contract, id and topic), the ids of the held stats
were minted after the session began and are pairwise distinct, and the
subscription meter has advanced by the number of held stats. -/
structure C2Inv (b0 : BrokerState) (c0 : Conn) (c : Conn) (b : BrokerState) : Prop where
  contract_eq : c.contract = c0.contract
  clnode_eq : c.hasClnode = c0.hasClnode
  closed_eq : c.closeCClosed = c0.closeCClosed
  connid_eq : c.connid = c0.connid
  remote_eq : b.remoteContracts = b0.remoteContracts
  nextid_mono : b0.store.nextID ≤ b.store.nextID
  meter_subs : b.meter.subscriptions = b0.meter.subscriptions + c.subs.length
  recs : ∃ extra : List SubRecord, b.store.records = b0.store.records ++ extra ∧
    extra.map (fun r => (r.contract, r.id, r.topic)) =
      c.subs.map (fun s => (c0.contract, s.id, s.topic))
  ids_lo : ∀ i ∈ c.subs.map (fun s => s.id), b0.store.nextID ≤ i
  ids_hi : ∀ i ∈ c.subs.map (fun s => s.id), i < b.store.nextID
  ids_pw : (c.subs.map (fun s => s.id)).Pairwise (· ≠ ·)

end Broker

/-! ### Helper lemmas -/

theorem fieldsFunc_nil (f : Char → Bool) : fieldsFunc f [] = [] := rfl

theorem wildSegs_depth (contract : Nat) :
    ∀ (segs : List (List Char)) (idx : Nat) (parts : List Part) (tType wc wcc d : Nat),
      d < 256 →
      (wildSegs contract segs idx parts tType wc wcc d).2.2.2 = (d + segs.length) % 256 := by
  intro segs
  induction segs with
  | nil =>
    intro idx parts tType wc wcc d hd
    simp [wildSegs, Nat.mod_eq_of_lt hd]
  | cons p rest ih =>
    intro idx parts tType wc wcc d hd
    simp only [wildSegs]
    split
    · rw [ih _ _ _ _ _ _ (Nat.mod_lt _ (by omega))]
      simp only [List.length_cons]
      omega
    · rw [ih _ _ _ _ _ _ (Nat.mod_lt _ (by omega))]
      simp only [List.length_cons]
      omega

/-! ### Claim C5 -/

/-- Claim C5: parsing the wildcard topic a.*.b yields two parts, the salted
hashes of a and b, with the part for segment b carrying wildchars one.
This is false on the code: the parser stores the pending wildchars count on
the part preceding the wildcard gap, so the part for segment a carries it
and the part for segment b carries zero. -/
theorem parse_wildchars_on_following_part_refuted :
    ¬ ((parseWildcardTopic 0 { topic := ['a', '.', '*', '.', 'b'] }).1.parts.length = 2 ∧
       (parseWildcardTopic 0 { topic := ['a', '.', '*', '.', 'b'] }).1.parts.map Part.query =
         [hashWithSalt ['a'] 0, hashWithSalt ['b'] 0] ∧
       ((parseWildcardTopic 0 { topic := ['a', '.', '*', '.', 'b'] }).1.parts.getD 1
         default).wildchars = 1) := by
  decide

/-- Claim C5 amended: parsing the wildcard topic a.*.b yields two parts,
the salted hashes of a and b, and the part for segment a (the concrete part
preceding the wildcard gap) carries wildchars one while the part for
segment b carries zero. -/
theorem parse_wildchars_on_preceding_part (contract : Nat) :
    (parseWildcardTopic contract { topic := ['a', '.', '*', '.', 'b'] }).1.parts =
      [⟨hashWithSalt ['a'] contract, 1⟩, ⟨hashWithSalt ['b'] contract, 0⟩] := by
  rfl

/-! ### Claim C6 -/

/-- Claim C6: after Parse, depth equals the count of concrete (non-wildcard)
parts, plus the sentinel 23 for a trailing children-of-all wildcard.  This
is false on the code: the wildcard parser's depth counter also counts the
single-level wildcard segments, so a.*.b (no trailing sentinel) gets depth
three while it has two concrete parts. -/
theorem depth_concrete_parts_refuted :
    ¬ ((parseWildcardTopic 0 { topic := ['a', '.', '*', '.', 'b'] }).1.depth =
        specConcreteParts ['a', '.', '*', '.', 'b']) := by
  decide

/-- Claim C6 amended: after Parse, depth equals the count of all
dot-separated segments, wildcard segments included, taken modulo 256 by the
uint8 counter, plus the sentinel 23 when the topic ends in the trailing
children-of-all wildcard; the static parser's depth is its segment count. -/
theorem parseWildSegsPhase_depth (contract : Nat) (t : MTopic) :
    (parseWildSegsPhase contract t).1.depth =
      (t.depth + (fieldsFunc (· == '.') t.topic).length) % 256 := by
  simp only [parseWildSegsPhase]
  rw [wildSegs_depth _ _ _ _ _ _ _ _ (by omega)]
  omega

theorem depth_counts_every_segment (contract : Nat) (t0 : MTopic) (h : t0.depth = 0) :
    (parseStaticTopic contract t0).1.depth =
      (fieldsFunc (· == '.') t0.topic).length % 256 ∧
    (parseWildcardTopic contract t0).1.depth =
      (if ['.', '.', '.'].isSuffixOf t0.topic then
        (23 + (fieldsFunc (· == '.') (trimRightDots t0.topic)).length) % 256
      else (fieldsFunc (· == '.') t0.topic).length % 256) := by
  constructor
  · simp [parseStaticTopic]
  · by_cases hs : ['.', '.', '.'].isSuffixOf t0.topic = true
    · by_cases he : (trimRightDots t0.topic).isEmpty = true
      · have ht : trimRightDots t0.topic = [] := by
          simpa [List.isEmpty_iff] using he
        simp [parseWildcardTopic, hs, he, ht, fieldsFunc_nil]
      · simp [parseWildcardTopic, hs, he, parseWildSegsPhase_depth]
    · rw [Bool.not_eq_true] at hs
      simp only [parseWildcardTopic, hs, Bool.false_eq_true, if_false]
      rw [parseWildSegsPhase_depth]
      simp only [h, hs, Bool.false_eq_true, if_false]
      omega

/-- Concrete check for the amended claim C6: a run of the theorem on the
topic a.*.b... with its hypothesis discharged. -/
theorem depth_counts_every_segment_check :
    ((⟨[], ['a', '.', '*', '.', 'b', '.', '.', '.'], [], [], 0, [], 0⟩ : MTopic).depth = 0) ∧
    (parseWildcardTopic 5 ⟨[], ['a', '.', '*', '.', 'b', '.', '.', '.'], [], [], 0, [], 0⟩).1.depth =
      (if ['.', '.', '.'].isSuffixOf ['a', '.', '*', '.', 'b', '.', '.', '.'] then
        (23 + (fieldsFunc (· == '.')
          (trimRightDots ['a', '.', '*', '.', 'b', '.', '.', '.'])).length) % 256
      else (fieldsFunc (· == '.') ['a', '.', '*', '.', 'b', '.', '.', '.']).length % 256) :=
  ⟨rfl, (depth_counts_every_segment 5 _ rfl).2⟩

/-! ### Claim C8 -/

theorem take4_le32_append (n : Nat) (r : List Nat) : (le32 n ++ r).take 4 = le32 n := by
  simp [le32]

theorem drop4_le32_append (n : Nat) (r : List Nat) : (le32 n ++ r).drop 4 = r := by
  simp [le32]

theorem dec32_le32 (n : Nat) : dec32 (le32 n) = n % 2 ^ 32 := by
  simp only [dec32, le32, List.getD_cons_zero, List.getD_cons_succ]
  omega

theorem varintDec_varint (n : Nat) (r : List Nat) : varintDec (varint n ++ r) = some (n, r) := by
  induction n using Nat.strong_induction_on with
  | _ n ih =>
    rw [varint]
    split
    · next h => simp [varintDec, h]
    · next h =>
      have hlt : n / 128 < n := Nat.div_lt_self (by omega) (by omega)
      simp only [List.cons_append, varintDec, List.append_eq]
      rw [if_neg (by omega), ih _ hlt]
      have heq : n % 128 + 128 - 128 + 128 * (n / 128) = n := by omega
      simp only [heq]

namespace Grpc

theorem take_len_append {α : Type} (l r : List α) : (l ++ r).take l.length = l := by
  simp

theorem drop_len_append {α : Type} (l r : List α) : (l ++ r).drop l.length = r := by
  simp

theorem unmarshal_marshal_publish (m : PbxPublish) :
    unmarshalPbxPublish (marshalPbxPublish m) =
      ⟨m.messageID % 2 ^ 32, m.topic, m.payload, m.qos % 2 ^ 32⟩ := by
  obtain ⟨mid, topic, payload, qos⟩ := m
  simp only [marshalPbxPublish, unmarshalPbxPublish, List.append_assoc,
    take4_le32_append, drop4_le32_append, dec32_le32, varintDec_varint,
    take_len_append, drop_len_append, List.take_length]

theorem unmarshal_marshal_puback (m : PbxPuback) :
    unmarshalPbxPuback (marshalPbxPuback m) = ⟨m.messageID % 2 ^ 32⟩ := by
  obtain ⟨mid⟩ := m
  simp only [marshalPbxPuback, unmarshalPbxPuback]
  rw [show (le32 mid).take 4 = le32 mid from by simp [le32], dec32_le32]

theorem unmarshal_marshal_pubrec (m : PbxPubrec) :
    unmarshalPbxPubrec (marshalPbxPubrec m) =
      ⟨m.messageID % 2 ^ 32, m.qos % 2 ^ 32⟩ := by
  obtain ⟨mid, qos⟩ := m
  simp only [marshalPbxPubrec, unmarshalPbxPubrec, take4_le32_append,
    drop4_le32_append, dec32_le32]
  rw [show (le32 qos).take 4 = le32 qos from by simp [le32], dec32_le32]

theorem unmarshal_marshal_pubrel (m : PbxPubrel) :
    unmarshalPbxPubrel (marshalPbxPubrel m) =
      ⟨m.messageID % 2 ^ 32, m.qos % 2 ^ 32⟩ := by
  obtain ⟨mid, qos⟩ := m
  simp only [marshalPbxPubrel, unmarshalPbxPubrel, take4_le32_append,
    drop4_le32_append, dec32_le32]
  rw [show (le32 qos).take 4 = le32 qos from by simp [le32], dec32_le32]

theorem unmarshal_marshal_pubcomp (m : PbxPubcomp) :
    unmarshalPbxPubcomp (marshalPbxPubcomp m) = ⟨m.messageID % 2 ^ 32⟩ := by
  obtain ⟨mid⟩ := m
  simp only [marshalPbxPubcomp, unmarshalPbxPubcomp]
  rw [show (le32 mid).take 4 = le32 mid from by simp [le32], dec32_le32]

theorem readPacket_fh (mt : Nat) (pkt : List Nat) :
    readPacket (fhPack ⟨mt, pkt.length⟩ ++ pkt) =
      (if mt = mtPUBLISH then some (unpackPublish pkt)
       else if mt = mtPUBACK then some (unpackPuback pkt)
       else if mt = mtPUBREC then some (unpackPubrec pkt)
       else if mt = mtPUBREL then some (unpackPubrel pkt)
       else if mt = mtPUBCOMP then some (unpackPubcomp pkt)
       else none) := by
  simp only [readPacket, fhPack, List.cons_append, fhUnpack, varintDec_varint,
    List.take_length]

/-- Claim C8: the round trip over the gRPC codec's encode and unpack pairs
returns a packet equal to the input for every publish-family packet with a
16-bit message id.  This is false on the code: the pbx proto carries no
forwarded flag, so a PUBLISH with the internal forwarded flag set decodes
with the flag cleared and is not equal to the input. -/
theorem grpc_roundtrip_forwarded_refuted :
    readPacket (encodePublish ⟨0, 1, [], [], true⟩) ≠
      some (Packet.publish ⟨0, 1, [], [], true⟩) := by
  rw [encodePublish, readPacket_fh, if_pos rfl]
  rw [show unpackPublish (marshalPbxPublish ⟨1, [], [], 0⟩) =
      Packet.publish ⟨0 % 2 ^ 32 % 2 ^ 8, 1 % 2 ^ 32 % 2 ^ 16, [], [], false⟩ from by
    rw [unpackPublish, unmarshal_marshal_publish]]
  simp

/-- Claim C8 amended: the round trip over the gRPC codec's encode and
unpack pairs returns a packet equal to the input for every publish-family
packet whose message id fits sixteen bits and whose qos fits eight, with
the forwarded flag unset on PUBLISH (that internal flag is not carried by
the proto and always decodes as unset). -/
theorem grpc_publish_family_roundtrip :
    (∀ p : Publish, p.messageID < 2 ^ 16 → p.qos < 2 ^ 8 → p.isForwarded = false →
      readPacket (encodePublish p) = some (Packet.publish p)) ∧
    (∀ p : Puback, p.messageID < 2 ^ 16 →
      readPacket (encodePuback p) = some (Packet.puback p)) ∧
    (∀ p : Pubrec, p.messageID < 2 ^ 16 → p.qos < 2 ^ 8 →
      readPacket (encodePubrec p) = some (Packet.pubrec p)) ∧
    (∀ p : Pubrel, p.messageID < 2 ^ 16 → p.qos < 2 ^ 8 →
      readPacket (encodePubrel p) = some (Packet.pubrel p)) ∧
    (∀ p : Pubcomp, p.messageID < 2 ^ 16 →
      readPacket (encodePubcomp p) = some (Packet.pubcomp p)) := by
  refine ⟨?_, ?_, ?_, ?_, ?_⟩
  · rintro ⟨qos, mid, topic, payload, fwd⟩ h1 h2 h3
    subst h3
    have h1' : mid < 2 ^ 16 := h1
    have h2' : qos < 2 ^ 8 := h2
    rw [encodePublish, readPacket_fh, if_pos rfl, unpackPublish,
      unmarshal_marshal_publish]
    have e1 : qos % 2 ^ 32 % 2 ^ 8 = qos := by omega
    have e2 : mid % 2 ^ 32 % 2 ^ 16 = mid := by omega
    rw [e1, e2]
  · rintro ⟨mid⟩ h1
    have h1' : mid < 2 ^ 16 := h1
    rw [encodePuback, readPacket_fh]
    rw [if_neg (by decide), if_pos rfl, unpackPuback, unmarshal_marshal_puback]
    have e2 : mid % 2 ^ 32 % 2 ^ 16 = mid := by omega
    rw [e2]
  · rintro ⟨qos, mid⟩ h1 h2
    have h1' : mid < 2 ^ 16 := h1
    have h2' : qos < 2 ^ 8 := h2
    rw [encodePubrec, readPacket_fh]
    rw [if_neg (by decide), if_neg (by decide), if_pos rfl, unpackPubrec,
      unmarshal_marshal_pubrec]
    have e1 : qos % 2 ^ 32 % 2 ^ 8 = qos := by omega
    have e2 : mid % 2 ^ 32 % 2 ^ 16 = mid := by omega
    rw [e1, e2]
  · rintro ⟨qos, mid⟩ h1 h2
    have h1' : mid < 2 ^ 16 := h1
    have h2' : qos < 2 ^ 8 := h2
    rw [encodePubrel, readPacket_fh]
    rw [if_neg (by decide), if_neg (by decide), if_neg (by decide), if_pos rfl,
      unpackPubrel, unmarshal_marshal_pubrel]
    have e1 : qos % 2 ^ 32 % 2 ^ 8 = qos := by omega
    have e2 : mid % 2 ^ 32 % 2 ^ 16 = mid := by omega
    rw [e1, e2]
  · rintro ⟨mid⟩ h1
    have h1' : mid < 2 ^ 16 := h1
    rw [encodePubcomp, readPacket_fh]
    rw [if_neg (by decide), if_neg (by decide), if_neg (by decide),
      if_neg (by decide), if_pos rfl, unpackPubcomp, unmarshal_marshal_pubcomp]
    have e2 : mid % 2 ^ 32 % 2 ^ 16 = mid := by omega
    rw [e2]

/-- Concrete check for the amended claim C8: a run of the round trip on one
packet of each kind with the hypotheses discharged. -/
theorem grpc_publish_family_roundtrip_check :
    ((42 : Nat) < 2 ^ 16 ∧ (1 : Nat) < 2 ^ 8) ∧
    readPacket (encodePublish ⟨1, 42, [10], [7], false⟩) =
      some (Packet.publish ⟨1, 42, [10], [7], false⟩) ∧
    readPacket (encodePuback ⟨42⟩) = some (Packet.puback ⟨42⟩) ∧
    readPacket (encodePubrec ⟨1, 42⟩) = some (Packet.pubrec ⟨1, 42⟩) ∧
    readPacket (encodePubrel ⟨1, 42⟩) = some (Packet.pubrel ⟨1, 42⟩) ∧
    readPacket (encodePubcomp ⟨42⟩) = some (Packet.pubcomp ⟨42⟩) :=
  ⟨⟨by omega, by omega⟩,
    grpc_publish_family_roundtrip.1 ⟨1, 42, [10], [7], false⟩ (by decide) (by decide) rfl,
    grpc_publish_family_roundtrip.2.1 ⟨42⟩ (by decide),
    grpc_publish_family_roundtrip.2.2.1 ⟨1, 42⟩ (by decide) (by decide),
    grpc_publish_family_roundtrip.2.2.2.1 ⟨1, 42⟩ (by decide) (by decide),
    grpc_publish_family_roundtrip.2.2.2.2 ⟨42⟩ (by decide)⟩

end Grpc

namespace Broker

/-! ### Claim C9 -/

/-- Claim C9: closing a connection is idempotent, a second close after one
completed close is safe and does not panic.  This is false on the code: the
second call closes the already-closed close-signal channel and panics. -/
theorem close_idempotent_refuted :
    (close (⟨9, 3, [], ⟨1, []⟩, false, false, false, false⟩ : Conn)
      ⟨⟨0, []⟩, ⟨1, 0, 0, 0, 0, 0⟩, [9], []⟩).1 = false ∧
    (close
      (close (⟨9, 3, [], ⟨1, []⟩, false, false, false, false⟩ : Conn)
        ⟨⟨0, []⟩, ⟨1, 0, 0, 0, 0, 0⟩, [9], []⟩).2.1
      (close (⟨9, 3, [], ⟨1, []⟩, false, false, false, false⟩ : Conn)
        ⟨⟨0, []⟩, ⟨1, 0, 0, 0, 0, 0⟩, [9], []⟩).2.2.1).1 = true := by
  decide

/-- Claim C9 amended: a second close after a first close always panics on
the already-closed close-signal channel; the panic happens before any store,
cache or meter mutation, so the connection state and the broker state are
left exactly as the first close produced them. -/
theorem close_second_call_panics (c : Conn) (b : BrokerState) :
    (close (close c b).2.1 (close c b).2.2.1).1 = true ∧
    (close (close c b).2.1 (close c b).2.2.1).2.1 = (close c b).2.1 ∧
    (close (close c b).2.1 (close c b).2.2.1).2.2.1 = (close c b).2.2.1 := by
  obtain ⟨connid, contract, subs, mids, hcl, hcc, hsend, hsock⟩ := c
  cases hcc <;> simp [close]

/-! ### Claim C3 -/

/-- Claim C3: a SUBSCRIBE on a remotely owned contract with the forwarded
flag unset is always forwarded to the owner.  This is false on the code:
Conn.subscribe forwards only when the key already exists in the local
stats, so the first subscribe of a key on a remote contract is handled
locally and never routed. -/
theorem subscribe_remote_unforwarded_refuted :
    isRemoteContract ⟨⟨0, []⟩, ⟨0, 0, 0, 0, 0, 0⟩, [9], [3]⟩ 3 = true ∧
    Event.routeToContract Op.subscribe ∉
      (subscribe ⟨9, 3, [], ⟨1, []⟩, false, false, false, false⟩ ⟨1, false⟩
        ⟨['k'], ['x'], 1⟩ ⟨⟨0, []⟩, ⟨0, 0, 0, 0, 0, 0⟩, [9], [3]⟩).2.2 := by
  decide

/-- Claim C3 amended: a SUBSCRIBE on a remotely owned contract with the
forwarded flag unset is forwarded to the owner exactly when the key is
already present in the connection's subscription stats, and then forwarding
is the only effect. -/
theorem subscribe_remote_forwards_existing_key (c : Conn) (msg : LpSubscribe)
    (t : SecTopic) (b : BrokerState) (h1 : statsExist c.subs t.key = true)
    (h2 : msg.isForwarded = false) (h3 : isRemoteContract b c.contract = true) :
    (subscribe c msg t b).2.2 = [Event.routeToContract Op.subscribe] := by
  simp [subscribe, h1, h2, h3]

/-- Concrete check for the amended claim C3: a run of the theorem with its
hypotheses discharged on a held key over a remote contract. -/
theorem subscribe_remote_forwards_existing_key_check :
    statsExist [(⟨['x'], ['k'], 0, 1⟩ : Stat)] ['k'] = true ∧
    (⟨1, false⟩ : LpSubscribe).isForwarded = false ∧
    isRemoteContract ⟨⟨1, []⟩, ⟨0, 0, 0, 0, 0, 0⟩, [9], [3]⟩ 3 = true ∧
    (subscribe ⟨9, 3, [⟨['x'], ['k'], 0, 1⟩], ⟨1, []⟩, false, false, false, false⟩
      ⟨1, false⟩ ⟨['k'], ['x'], 1⟩ ⟨⟨1, []⟩, ⟨0, 0, 0, 0, 0, 0⟩, [9], [3]⟩).2.2 =
      [Event.routeToContract Op.subscribe] :=
  ⟨by decide, by decide, by decide,
    subscribe_remote_forwards_existing_key _ _ _ _ (by decide) rfl (by decide)⟩

/-! ### Claim C7 -/

/-- Claim C7: subscribe writes to the store exactly when the stats increment
reports the first reference, persisting the five-byte qos-plus-connid-LE
payload under (contract, minted id, topic) and bumping the subscription
meter, and unsubscribe deletes the record and lowers the meter exactly when
the decrement reports the last reference.  The first reference condition is
rendered by the key being absent from the stats, which is exactly when
Increment reports first. -/
theorem subscribe_unsubscribe_store_edges (c : Conn) (b : BrokerState) (t : SecTopic)
    (msgS : LpSubscribe) (msgU : LpUnsubscribe) :
    ((subscribe c msgS t b).2.1.store.records =
      if statsExist c.subs t.key then b.store.records
      else b.store.records ++
        [⟨c.contract, b.store.nextID, t.topic, msgS.qos :: le32 c.connid⟩]) ∧
    ((subscribe c msgS t b).2.1.meter.subscriptions =
      if statsExist c.subs t.key then b.meter.subscriptions
      else b.meter.subscriptions + 1) ∧
    ((unsubscribe c msgU t b).2.1.store.records =
      if (statsDecrement c.subs (t.topic.take t.size) t.key).1 then
        (subDelete b.store c.contract
          (statsDecrement c.subs (t.topic.take t.size) t.key).2.1
          (t.topic.take t.size)).records
      else b.store.records) ∧
    ((unsubscribe c msgU t b).2.1.meter.subscriptions =
      if (statsDecrement c.subs (t.topic.take t.size) t.key).1 then
        b.meter.subscriptions - 1
      else b.meter.subscriptions) := by
  refine ⟨?_, ?_, ?_, ?_⟩
  · by_cases hex : statsExist c.subs t.key = true
    · simp only [subscribe]
      split
      · simp [hex]
      · simp [statsIncrement, hex, subNewID, subPut]
    · rw [Bool.not_eq_true] at hex
      simp [subscribe, statsIncrement, hex, subNewID, subPut]
  · by_cases hex : statsExist c.subs t.key = true
    · simp only [subscribe]
      split
      · simp [hex]
      · simp [statsIncrement, hex, subNewID, subPut]
    · rw [Bool.not_eq_true] at hex
      simp [subscribe, statsIncrement, hex, subNewID, subPut]
  · cases hlast : (statsDecrement c.subs (t.topic.take t.size) t.key).1 <;>
      simp [unsubscribe, hlast]
  · cases hlast : (statsDecrement c.subs (t.topic.take t.size) t.key).1 <;>
      simp [unsubscribe, hlast]

/-! ### Claim C10 -/

theorem sendPairs_nil : sendPairs [] = [] := rfl

theorem sendPairs_cons_mint (mid : Nat) (evs : List Event) :
    sendPairs (Event.mint mid :: evs) = sendPairs evs := by
  simp [sendPairs]

theorem sendPairs_cons_send (lid : Nat) (m : Msg) (evs : List Event) :
    sendPairs (Event.sendMessage lid m :: evs) = (lid, m.qos) :: sendPairs evs := by
  simp [sendPairs]

theorem sendPairs_cons_route (op : Op) (evs : List Event) :
    sendPairs (Event.routeToContract op :: evs) = sendPairs evs := by
  simp [sendPairs]

theorem sendPairs_append (l1 l2 : List Event) :
    sendPairs (l1 ++ l2) = sendPairs l1 ++ sendPairs l2 := by
  simp [sendPairs]

theorem fanOut_send_pairs (cache : List Nat) (connid : Nat) :
    ∀ (recs : List (List Nat)) (m : Msg) (mids : MessageIds),
      sendPairs (fanOut cache connid recs m mids).2.2.2 =
        recs.filterMap (fun rec =>
          if cache.contains (dec32 (rec.drop 1)) = true then
            some (dec32 (rec.drop 1), rec.getD 0 0)
          else none) := by
  intro recs
  induction recs with
  | nil => intro m mids; simp [fanOut, sendPairs]
  | cons rec rest ih =>
    intro m mids
    rw [List.filterMap_cons]
    by_cases hc : cache.contains (dec32 (rec.drop 1)) = true
    · simp only [fanOut, hc, if_true, eq_self_iff_true]
      split
      · rw [List.singleton_append, sendPairs_cons_mint, sendPairs_cons_send, ih]
      · rw [List.nil_append, sendPairs_cons_send, ih]
    · rw [Bool.not_eq_true] at hc
      simp only [fanOut, hc, Bool.false_eq_true, if_false]
      rw [ih]

/-- Claim C10: in the publish fan-out, the qos delivered to each cached
subscriber is the first byte of that subscriber's stored subscription
record; the incoming packet's qos plays no role (the right-hand side does
not mention it), hence subscribers with distinct stored qos values receive
distinct qos in the same fan-out. -/
theorem fanout_qos_from_stored_record (c : Conn) (msg : LpPublish) (messageID : Nat)
    (t : SecTopic) (payload : List Nat) (b : BrokerState) :
    sendPairs (publish c msg messageID t payload b).2.2 =
      (subGet b.store c.contract t.topic).filterMap (fun rec =>
        if b.cache.contains (dec32 (rec.drop 1)) = true then
          some (dec32 (rec.drop 1), rec.getD 0 0)
        else none) := by
  simp only [publish]
  split
  · rw [sendPairs_append, fanOut_send_pairs]
    simp [sendPairs]
  · rw [fanOut_send_pairs]

/-! ### Claim C1 -/

theorem route_not_in_fanout (cache : List Nat) (connid : Nat) (op : Op) :
    ∀ (recs : List (List Nat)) (m : Msg) (mids : MessageIds),
      Event.routeToContract op ∉ (fanOut cache connid recs m mids).2.2.2 := by
  intro recs
  induction recs with
  | nil => intro m mids; simp [fanOut]
  | cons rec rest ih =>
    intro m mids
    by_cases hc : cache.contains (dec32 (rec.drop 1)) = true
    · simp only [fanOut, hc, if_true]
      split
      · simp [ih]
      · simp [ih]
    · rw [Bool.not_eq_true] at hc
      simp only [fanOut, hc, Bool.false_eq_true, if_false]
      exact ih _ _

/-- Claim C1: a packet arriving with the forwarded flag set is never
re-forwarded: handling it through subscribe, unsubscribe or publish emits
no routeToContract call. -/
theorem forwarded_packet_never_routes (c : Conn) (b : BrokerState) (t : SecTopic)
    (msgS : LpSubscribe) (msgU : LpUnsubscribe) (msgP : LpPublish)
    (messageID : Nat) (payload : List Nat) (op : Op)
    (hS : msgS.isForwarded = true) (hU : msgU.isForwarded = true)
    (hP : msgP.isForwarded = true) :
    Event.routeToContract op ∉ (subscribe c msgS t b).2.2 ∧
    Event.routeToContract op ∉ (unsubscribe c msgU t b).2.2 ∧
    Event.routeToContract op ∉ (publish c msgP messageID t payload b).2.2 := by
  refine ⟨?_, ?_, ?_⟩
  · simp only [subscribe, hS]
    simp only [Bool.not_true, Bool.and_false, Bool.false_and, Bool.false_eq_true, if_false]
    split <;> simp
  · simp only [unsubscribe, hU]
    split <;> simp
  · simp only [publish, hP]
    simp only [Bool.not_true, Bool.false_and, Bool.false_eq_true, if_false]
    exact route_not_in_fanout _ _ _ _ _ _

/-! ### Claim C4 -/

theorem fanOut_sends_fixed (cache : List Nat) (connid msgID : Nat) (hne : msgID ≠ 0) :
    ∀ (recs : List (List Nat)) (m : Msg) (mids : MessageIds), m.messageID = msgID →
      ∀ lid m', Event.sendMessage lid m' ∈ (fanOut cache connid recs m mids).2.2.2 →
        m'.messageID = msgID := by
  intro recs
  induction recs with
  | nil =>
    intro m mids hm lid m' h
    simp [fanOut] at h
  | cons rec rest ih =>
    intro m mids hm lid m' h
    by_cases hc : cache.contains (dec32 (rec.drop 1)) = true
    · have hcond : ¬(rec.getD 0 0 ≠ 0 ∧ m.messageID = 0) :=
        fun hco => hne (hm.symm.trans hco.2)
      simp only [fanOut, hc, if_true, if_neg hcond, List.nil_append, List.mem_cons] at h
      rcases h with h1 | h2
      · simp only [Event.sendMessage.injEq] at h1
        rw [h1.2]
        exact hm
      · exact ih { m with qos := rec.getD 0 0 } mids hm lid m' h2
    · rw [Bool.not_eq_true] at hc
      simp only [fanOut, hc, Bool.false_eq_true, if_false] at h
      exact ih { m with qos := rec.getD 0 0 } mids hm lid m' h

theorem fanOut_sends_minted (cache : List Nat) (connid : Nat) :
    ∀ (recs : List (List Nat)) (m : Msg) (mids : MessageIds) (prior : List Nat),
      (m.messageID = 0 ∨ ∃ mid ∈ prior, m.messageID = outboundID connid mid) →
      ∀ lid m', Event.sendMessage lid m' ∈ (fanOut cache connid recs m mids).2.2.2 →
        m'.qos ≠ 0 →
        ∃ mid, (Event.mint mid ∈ (fanOut cache connid recs m mids).2.2.2 ∨ mid ∈ prior) ∧
          m'.messageID = outboundID connid mid := by
  intro recs
  induction recs with
  | nil =>
    intro m mids prior hm lid m' h hq
    simp [fanOut] at h
  | cons rec rest ih =>
    intro m mids prior hm lid m' h hq
    by_cases hc : cache.contains (dec32 (rec.drop 1)) = true
    · by_cases hcond : rec.getD 0 0 ≠ 0 ∧ m.messageID = 0
      · simp only [fanOut, hc, if_true, if_pos hcond, List.singleton_append,
          List.mem_cons] at h ⊢
        rcases h with h1 | h3 | h4
        · exact absurd h1 (by simp)
        · simp only [Event.sendMessage.injEq] at h3
          exact ⟨(nextID mids).1, Or.inl (Or.inl rfl), by rw [h3.2]⟩
        · obtain ⟨mid, hin, heq⟩ :=
            ih { m with qos := rec.getD 0 0,
                        messageID := outboundID connid (nextID mids).1 }
              (nextID mids).2 ((nextID mids).1 :: prior)
              (Or.inr ⟨(nextID mids).1, List.mem_cons_self _ _, rfl⟩) lid m' h4 hq
          refine ⟨mid, ?_, heq⟩
          rcases hin with hmint | hpr
          · exact Or.inl (Or.inr (Or.inr hmint))
          · rcases List.mem_cons.mp hpr with rfl | hpr2
            · exact Or.inl (Or.inl rfl)
            · exact Or.inr hpr2
      · simp only [fanOut, hc, if_true, if_neg hcond, List.nil_append,
          List.mem_cons] at h ⊢
        rcases h with h3 | h4
        · simp only [Event.sendMessage.injEq] at h3
          have hqos : rec.getD 0 0 ≠ 0 := by
            rw [h3.2] at hq
            exact hq
          have hmid : m.messageID ≠ 0 := fun h0 => hcond ⟨hqos, h0⟩
          rcases hm with hm0 | ⟨mid, hpr, heq⟩
          · exact absurd hm0 hmid
          · exact ⟨mid, Or.inr hpr, by rw [h3.2]; exact heq⟩
        · obtain ⟨mid, hin, heq⟩ :=
            ih { m with qos := rec.getD 0 0 } mids prior hm lid m' h4 hq
          refine ⟨mid, ?_, heq⟩
          rcases hin with hmint | hpr
          · exact Or.inl (Or.inr hmint)
          · exact Or.inr hpr
    · rw [Bool.not_eq_true] at hc
      simp only [fanOut, hc, Bool.false_eq_true, if_false] at h ⊢
      exact ih { m with qos := rec.getD 0 0 } mids prior hm lid m' h hq

/-- Claim C4: every message sent to a subscriber on a QoS-positive publish
path carries a non-zero message id minted from the publishing connection's
inflight table.  This is false on the code: when Conn.publish is invoked
with a non-zero incoming message id, the fan-out reuses that id verbatim
and never touches the inflight table, as this run with incoming id seven
and a stored qos-one subscriber shows. -/
theorem qos_delivery_minted_id_refuted :
    specC4B 9 (publish ⟨9, 3, [], ⟨1, []⟩, false, false, false, false⟩ ⟨0, false⟩ 7
      ⟨['k'], ['x'], 1⟩ [5]
      ⟨⟨1, [⟨3, 0, ['x'], [1, 9, 0, 0, 0]⟩]⟩, ⟨0, 0, 0, 0, 0, 0⟩, [9], []⟩).2.2 = false := by
  decide

/-- Claim C4 amended: a delivery with non-zero qos on the publish path
carries the incoming message id verbatim when that id is non-zero, and
otherwise an id obtained by the outbound transform from a mid minted from
the publishing connection's inflight table during the same run (which is
how a non-zero id arises whenever the transform does not collapse to
zero). -/
theorem qos_delivery_id_provenance (c : Conn) (msg : LpPublish) (messageID : Nat)
    (t : SecTopic) (payload : List Nat) (b : BrokerState) (lid : Nat) (m' : Msg)
    (h : Event.sendMessage lid m' ∈ (publish c msg messageID t payload b).2.2)
    (hq : m'.qos ≠ 0) :
    (messageID ≠ 0 → m'.messageID = messageID) ∧
    (messageID = 0 → ∃ mid,
      Event.mint mid ∈ (publish c msg messageID t payload b).2.2 ∧
      m'.messageID = outboundID c.connid mid) := by
  have hget : ∀ e, e ∈ (publish c msg messageID t payload b).2.2 ↔
      (e ∈ (fanOut b.cache c.connid (subGet b.store c.contract t.topic)
        ⟨messageID, 0, t.topic.take t.size, payload⟩ c.mids).2.2.2 ∨
       (¬msg.isForwarded && isRemoteContract b c.contract) = true ∧
         e = Event.routeToContract Op.publish) := by
    intro e
    simp only [publish]
    split
    · next hcase =>
      simp [hcase, List.mem_append]
    · next hcase =>
      simp [hcase]
  constructor
  · intro hne
    rcases (hget _).mp h with hf | ⟨_, habs⟩
    · exact fanOut_sends_fixed b.cache c.connid messageID hne _ _ _ rfl lid m' hf
    · simp at habs
  · intro h0
    rcases (hget _).mp h with hf | ⟨_, habs⟩
    · obtain ⟨mid, hin, heq⟩ :=
        fanOut_sends_minted b.cache c.connid _ _ c.mids []
          (Or.inl h0) lid m' hf hq
      rcases hin with hmint | hpr
      · exact ⟨mid, (hget _).mpr (Or.inl hmint), heq⟩
      · simp at hpr
    · simp at habs

/-- Concrete check for the amended claim C4: a run of the theorem with its
hypotheses discharged, on a publish with incoming id zero and one stored
qos-one subscriber, whose delivery id comes from the mint in the run. -/
theorem qos_delivery_id_provenance_check :
    (0 ≠ 0 → (⟨8, 1, ['y'], [6]⟩ : Msg).messageID = 0) ∧
    (0 = 0 → ∃ mid,
      Event.mint mid ∈ (publish ⟨9, 3, [], ⟨1, []⟩, false, false, false, false⟩
        ⟨0, false⟩ 0 ⟨['k'], ['y'], 1⟩ [6]
        ⟨⟨1, [⟨3, 0, ['y'], [1, 9, 0, 0, 0]⟩]⟩, ⟨0, 0, 0, 0, 0, 0⟩, [9], []⟩).2.2 ∧
      (⟨8, 1, ['y'], [6]⟩ : Msg).messageID = outboundID 9 mid) :=
  qos_delivery_id_provenance ⟨9, 3, [], ⟨1, []⟩, false, false, false, false⟩
    ⟨0, false⟩ 0 ⟨['k'], ['y'], 1⟩ [6]
    ⟨⟨1, [⟨3, 0, ['y'], [1, 9, 0, 0, 0]⟩]⟩, ⟨0, 0, 0, 0, 0, 0⟩, [9], []⟩
    9 ⟨8, 1, ['y'], [6]⟩ (by decide) (by decide)

/-- Concrete check for claim C1: a run of the theorem on forwarded packets
with its hypotheses discharged. -/
theorem forwarded_packet_never_routes_check :
    (⟨2, true⟩ : LpSubscribe).isForwarded = true ∧
    (⟨true⟩ : LpUnsubscribe).isForwarded = true ∧
    (⟨2, true⟩ : LpPublish).isForwarded = true ∧
    (Event.routeToContract Op.publish ∉
      (subscribe ⟨8, 4, [], ⟨1, []⟩, false, false, false, false⟩ ⟨2, true⟩
        ⟨['j'], ['z'], 1⟩ ⟨⟨0, []⟩, ⟨0, 0, 0, 0, 0, 0⟩, [8], [4]⟩).2.2 ∧
     Event.routeToContract Op.publish ∉
      (unsubscribe ⟨8, 4, [], ⟨1, []⟩, false, false, false, false⟩ ⟨true⟩
        ⟨['j'], ['z'], 1⟩ ⟨⟨0, []⟩, ⟨0, 0, 0, 0, 0, 0⟩, [8], [4]⟩).2.2 ∧
     Event.routeToContract Op.publish ∉
      (publish ⟨8, 4, [], ⟨1, []⟩, false, false, false, false⟩ ⟨2, true⟩ 0
        ⟨['j'], ['z'], 1⟩ [7] ⟨⟨0, []⟩, ⟨0, 0, 0, 0, 0, 0⟩, [8], [4]⟩).2.2) :=
  ⟨rfl, rfl, rfl,
    forwarded_packet_never_routes _ _ _ _ _ _ _ _ _ rfl rfl rfl⟩

/-! ### Claim C2 -/

theorem bump_preserves {α : Type} (f : Stat → α)
    (hf : ∀ s : Stat, f { s with refcount := s.refcount + 1 } = f s)
    (subs : List Stat) (key : List Char) :
    ((subs.map fun s =>
        if s.key == key then { s with refcount := s.refcount + 1 } else s).map f)
      = subs.map f := by
  rw [List.map_map]
  apply List.map_congr_left
  intro s _
  by_cases h : (s.key == key) = true <;> simp [Function.comp, h, hf s]

theorem c2_subscribe_step (b0 : BrokerState) (c0 : Conn)
    (hloc : isRemoteContract b0 c0.contract = false)
    (c : Conn) (b : BrokerState) (msg : LpSubscribe) (t : SecTopic)
    (hsz : t.size = t.topic.length)
    (hinv : C2Inv b0 c0 c b) :
    C2Inv b0 c0 (subscribe c msg t b).1 (subscribe c msg t b).2.1 := by
  have hrem : isRemoteContract b c.contract = false := by
    rw [hinv.contract_eq]
    unfold isRemoteContract at hloc ⊢
    rw [hinv.remote_eq]
    exact hloc
  have hguard : (statsExist c.subs t.key && !msg.isForwarded &&
      isRemoteContract b c.contract) = false := by
    rw [hrem]
    simp
  have htake : t.topic.take t.size = t.topic := by
    rw [hsz, List.take_length]
  by_cases hex : statsExist c.subs t.key = true
  · simp only [subscribe]
    rw [hguard]
    simp only [Bool.false_eq_true, if_false, subNewID, statsIncrement, hex, if_true]
    obtain ⟨extra, hrec, hproj⟩ := hinv.recs
    refine ⟨hinv.contract_eq, hinv.clnode_eq, hinv.closed_eq, hinv.connid_eq,
      hinv.remote_eq, ?_, ?_, ?_, ?_, ?_, ?_⟩
    · have := hinv.nextid_mono
      show b0.store.nextID ≤ b.store.nextID + 1
      omega
    · rw [hinv.meter_subs]
      simp
    · exact ⟨extra, hrec, by
        rw [bump_preserves (fun s => (c0.contract, s.id, s.topic)) (fun s => rfl)]
        exact hproj⟩
    · rw [bump_preserves (fun s => s.id) (fun s => rfl)]
      exact hinv.ids_lo
    · rw [bump_preserves (fun s => s.id) (fun s => rfl)]
      intro i hi
      have := hinv.ids_hi i hi
      show i < b.store.nextID + 1
      omega
    · rw [bump_preserves (fun s => s.id) (fun s => rfl)]
      exact hinv.ids_pw
  · rw [Bool.not_eq_true] at hex
    simp only [subscribe]
    rw [hguard]
    simp only [Bool.false_eq_true, if_false, subNewID, subPut, statsIncrement, hex,
      if_true]
    obtain ⟨extra, hrec, hproj⟩ := hinv.recs
    refine ⟨hinv.contract_eq, hinv.clnode_eq, hinv.closed_eq, hinv.connid_eq,
      hinv.remote_eq, ?_, ?_, ?_, ?_, ?_, ?_⟩
    · have := hinv.nextid_mono
      show b0.store.nextID ≤ b.store.nextID + 1
      omega
    · rw [hinv.meter_subs]
      simp only [List.length_append, List.length_cons, List.length_nil]
      push_cast
      ring
    · refine ⟨extra ++ [⟨c.contract, b.store.nextID, t.topic,
        msg.qos :: le32 c.connid⟩], ?_, ?_⟩
      · rw [hrec, List.append_assoc]
      · simp only [List.map_append, List.map_cons, List.map_nil, hproj, htake,
          hinv.contract_eq]
    · simp only [List.map_append, List.map_cons, List.map_nil]
      intro i hi
      rcases List.mem_append.mp hi with h1 | h2
      · exact hinv.ids_lo i h1
      · have := hinv.nextid_mono
        simp only [List.mem_singleton] at h2
        omega
    · simp only [List.map_append, List.map_cons, List.map_nil]
      intro i hi
      show i < b.store.nextID + 1
      rcases List.mem_append.mp hi with h1 | h2
      · have := hinv.ids_hi i h1
        omega
      · simp only [List.mem_singleton] at h2
        omega
    · simp only [List.map_append, List.map_cons, List.map_nil]
      rw [List.pairwise_append]
      refine ⟨hinv.ids_pw, List.pairwise_singleton _ _, ?_⟩
      intro i hi j hj
      have := hinv.ids_hi i hi
      simp only [List.mem_singleton] at hj
      omega

theorem c2_subscribeAll (b0 : BrokerState) (c0 : Conn)
    (hloc : isRemoteContract b0 c0.contract = false) :
    ∀ (ops : List (LpSubscribe × SecTopic)),
      (∀ p ∈ ops, p.2.size = p.2.topic.length) →
      ∀ c b, C2Inv b0 c0 c b →
        C2Inv b0 c0 (subscribeAll c b ops).1 (subscribeAll c b ops).2 := by
  intro ops
  induction ops with
  | nil =>
    intro _ c b h
    simpa [subscribeAll] using h
  | cons p rest ih =>
    intro hsz c b hinv
    obtain ⟨msg, t⟩ := p
    simp only [subscribeAll]
    exact ih (fun q hq => hsz q (List.mem_cons_of_mem _ hq)) _ _
      (c2_subscribe_step b0 c0 hloc c b msg t (hsz ⟨msg, t⟩ (List.mem_cons_self _ _)) hinv)

theorem closeDeletes_clears (ct n0 : Nat) :
    ∀ (stats : List Stat) (extra base : List SubRecord) (st : SubStore) (mt : Meter),
      st.records = base ++ extra →
      (∀ r ∈ base, r.id < n0) →
      (∀ i ∈ stats.map (fun s => s.id), n0 ≤ i) →
      ((stats.map (fun s => s.id)).Pairwise (· ≠ ·)) →
      extra.map (fun r => (r.contract, r.id, r.topic)) =
        stats.map (fun s => (ct, s.id, s.topic)) →
      (closeDeletes ct stats st mt).1.records = base ∧
      (closeDeletes ct stats st mt).2.1.subscriptions =
        mt.subscriptions - stats.length ∧
      (∀ e ∈ (closeDeletes ct stats st mt).2.2,
        ∃ i tp, e = Event.storeDelete ct i tp) := by
  intro stats
  induction stats with
  | nil =>
    intro extra base st mt hst hbase hlo hpw hproj
    have hex : extra = [] := by
      cases extra with
      | nil => rfl
      | cons r er => simp at hproj
    subst hex
    rw [List.append_nil] at hst
    refine ⟨by simp [closeDeletes, hst], by simp [closeDeletes], ?_⟩
    intro e he
    simp [closeDeletes] at he
  | cons s rest ih =>
    intro extra base st mt hst hbase hlo hpw hproj
    cases extra with
    | nil => simp at hproj
    | cons r er =>
      simp only [List.map_cons, List.cons.injEq, Prod.mk.injEq] at hproj
      obtain ⟨⟨hrc, hri, hrt⟩, hproj'⟩ := hproj
      have hslo : n0 ≤ s.id := hlo s.id (by simp)
      have hids : er.map (fun q => q.id) = rest.map (fun u => u.id) := by
        have := congrArg (List.map fun x => x.2.1) hproj'
        simpa [List.map_map, Function.comp] using this
      have hsne : ∀ i ∈ rest.map (fun u => u.id), s.id ≠ i := by
        intro i hi
        exact (List.pairwise_cons.mp (by simpa using hpw)).1 i hi
      have hfilter : st.records.filter (fun q =>
          !(q.contract == ct && q.id == s.id && q.topic == s.topic)) = base ++ er := by
        rw [hst, List.filter_append]
        congr 1
        · apply List.filter_eq_self.mpr
          intro q hq
          have hne : q.id ≠ s.id := by
            have := hbase q hq
            omega
          have hb : (q.id == s.id) = false := beq_eq_false_iff_ne.mpr hne
          simp [hb]
        · rw [List.filter_cons]
          have hb : (r.contract == ct && r.id == s.id && r.topic == s.topic) = true := by
            rw [hrc, hri, hrt]
            simp
          simp only [hb, Bool.not_true, Bool.false_eq_true, if_false]
          apply List.filter_eq_self.mpr
          intro q hq
          have hqmem : q.id ∈ rest.map (fun u => u.id) := by
            rw [← hids]
            exact List.mem_map_of_mem _ hq
          have hne : q.id ≠ s.id := fun h => hsne q.id hqmem h.symm
          have hb2 : (q.id == s.id) = false := beq_eq_false_iff_ne.mpr hne
          simp [hb2]
      simp only [closeDeletes, subDelete]
      obtain ⟨ih1, ih2, ih3⟩ := ih er base { st with records := st.records.filter (fun q =>
          !(q.contract == ct && q.id == s.id && q.topic == s.topic)) }
        { mt with subscriptions := mt.subscriptions - 1 }
        (by simpa using hfilter)
        hbase
        (fun i hi => hlo i (by simp [hi]))
        (by
          rw [List.map_cons] at hpw
          exact (List.pairwise_cons.mp hpw).2)
        hproj'
      refine ⟨ih1, ?_, ?_⟩
      · rw [ih2]
        simp only [List.length_cons]
        push_cast
        ring
      · intro e he
        simp only [List.mem_cons] at he
        rcases he with rfl | he2
        · exact ⟨s.id, s.topic, rfl⟩
        · exact ih3 e he2

/-- Claim C2: after close of a connection with no cluster-node
back-reference, every subscription record its subscribes put into the store
has been deleted by direct store deletes (close never calls unsubscribe, so
no cluster forwarding can occur) and the subscription meter equals its
value before the connection subscribed.  Stated for a fresh local
connection running any sequence of SUBSCRIBE operations whose parsed
topics slice to their full topic bytes, against a store whose existing
record ids predate the session. -/
theorem close_clears_connection_subscriptions (c0 : Conn) (b0 : BrokerState)
    (ops : List (LpSubscribe × SecTopic))
    (hsubs : c0.subs = []) (hcl : c0.hasClnode = false)
    (hopen : c0.closeCClosed = false)
    (hloc : isRemoteContract b0 c0.contract = false)
    (hsz : ∀ p ∈ ops, p.2.size = p.2.topic.length)
    (hfresh : ∀ r ∈ b0.store.records, r.id < b0.store.nextID) :
    (close (subscribeAll c0 b0 ops).1 (subscribeAll c0 b0 ops).2).1 = false ∧
    (close (subscribeAll c0 b0 ops).1
      (subscribeAll c0 b0 ops).2).2.2.1.store.records = b0.store.records ∧
    (close (subscribeAll c0 b0 ops).1
      (subscribeAll c0 b0 ops).2).2.2.1.meter.subscriptions =
      b0.meter.subscriptions ∧
    (∀ e ∈ (close (subscribeAll c0 b0 ops).1 (subscribeAll c0 b0 ops).2).2.2.2,
      (∃ i tp, e = Event.storeDelete c0.contract i tp) ∨
        e = Event.connGone (subscribeAll c0 b0 ops).1.connid) := by
  have hinv0 : C2Inv b0 c0 c0 b0 :=
    ⟨rfl, rfl, rfl, rfl, rfl, le_refl _, by simp [hsubs],
     ⟨[], by simp, by simp [hsubs]⟩, by simp [hsubs], by simp [hsubs],
     by simp [hsubs]⟩
  have hinv := c2_subscribeAll b0 c0 hloc ops hsz c0 b0 hinv0
  obtain ⟨extra, hrec, hproj⟩ := hinv.recs
  have hclear := closeDeletes_clears c0.contract b0.store.nextID
    (subscribeAll c0 b0 ops).1.subs extra b0.store.records
    (subscribeAll c0 b0 ops).2.store (subscribeAll c0 b0 ops).2.meter
    hrec hfresh hinv.ids_lo hinv.ids_pw hproj
  have hcc : (subscribeAll c0 b0 ops).1.closeCClosed = false :=
    hinv.closed_eq.trans hopen
  have hcln : (subscribeAll c0 b0 ops).1.hasClnode = false :=
    hinv.clnode_eq.trans hcl
  refine ⟨?_, ?_, ?_, ?_⟩
  · simp [close, hcc]
  · simp only [close, hcc, Bool.false_eq_true, if_false, hcln, Bool.not_false,
      if_true, hinv.contract_eq]
    exact hclear.1
  · simp only [close, hcc, Bool.false_eq_true, if_false, hcln, Bool.not_false,
      if_true, hinv.contract_eq]
    rw [hclear.2.1, hinv.meter_subs]
    ring
  · simp only [close, hcc, Bool.false_eq_true, if_false, hcln, Bool.not_false,
      if_true, hinv.contract_eq]
    intro e he
    rcases List.mem_append.mp he with h1 | h2
    · exact Or.inl (hclear.2.2 e h1)
    · simp only [List.mem_singleton] at h2
      exact Or.inr h2

/-- Concrete check for claim C2: a run of the theorem with all hypotheses
discharged, for one subscribe followed by close. -/
theorem close_clears_connection_subscriptions_check :
    (close (subscribeAll ⟨9, 3, [], ⟨1, []⟩, false, false, false, false⟩
        ⟨⟨0, []⟩, ⟨0, 0, 0, 0, 0, 0⟩, [9], []⟩
        [(⟨1, false⟩, ⟨['k'], ['x', '.', 'y'], 3⟩)]).1
      (subscribeAll ⟨9, 3, [], ⟨1, []⟩, false, false, false, false⟩
        ⟨⟨0, []⟩, ⟨0, 0, 0, 0, 0, 0⟩, [9], []⟩
        [(⟨1, false⟩, ⟨['k'], ['x', '.', 'y'], 3⟩)]).2).1 = false ∧
    (close (subscribeAll ⟨9, 3, [], ⟨1, []⟩, false, false, false, false⟩
        ⟨⟨0, []⟩, ⟨0, 0, 0, 0, 0, 0⟩, [9], []⟩
        [(⟨1, false⟩, ⟨['k'], ['x', '.', 'y'], 3⟩)]).1
      (subscribeAll ⟨9, 3, [], ⟨1, []⟩, false, false, false, false⟩
        ⟨⟨0, []⟩, ⟨0, 0, 0, 0, 0, 0⟩, [9], []⟩
        [(⟨1, false⟩, ⟨['k'], ['x', '.', 'y'], 3⟩)]).2).2.2.1.store.records = [] ∧
    (close (subscribeAll ⟨9, 3, [], ⟨1, []⟩, false, false, false, false⟩
        ⟨⟨0, []⟩, ⟨0, 0, 0, 0, 0, 0⟩, [9], []⟩
        [(⟨1, false⟩, ⟨['k'], ['x', '.', 'y'], 3⟩)]).1
      (subscribeAll ⟨9, 3, [], ⟨1, []⟩, false, false, false, false⟩
        ⟨⟨0, []⟩, ⟨0, 0, 0, 0, 0, 0⟩, [9], []⟩
        [(⟨1, false⟩, ⟨['k'], ['x', '.', 'y'], 3⟩)]).2).2.2.1.meter.subscriptions = 0 :=
  ⟨(close_clears_connection_subscriptions ⟨9, 3, [], ⟨1, []⟩, false, false, false, false⟩
      ⟨⟨0, []⟩, ⟨0, 0, 0, 0, 0, 0⟩, [9], []⟩ [(⟨1, false⟩, ⟨['k'], ['x', '.', 'y'], 3⟩)]
      rfl rfl rfl (by decide) (by decide) (by decide)).1,
   (close_clears_connection_subscriptions ⟨9, 3, [], ⟨1, []⟩, false, false, false, false⟩
      ⟨⟨0, []⟩, ⟨0, 0, 0, 0, 0, 0⟩, [9], []⟩ [(⟨1, false⟩, ⟨['k'], ['x', '.', 'y'], 3⟩)]
      rfl rfl rfl (by decide) (by decide) (by decide)).2.1,
   (close_clears_connection_subscriptions ⟨9, 3, [], ⟨1, []⟩, false, false, false, false⟩
      ⟨⟨0, []⟩, ⟨0, 0, 0, 0, 0, 0⟩, [9], []⟩ [(⟨1, false⟩, ⟨['k'], ['x', '.', 'y'], 3⟩)]
      rfl rfl rfl (by decide) (by decide) (by decide)).2.2.1⟩

end Broker

end Trace
